import Mathlib

/-!
Verification development for the nm-configurator core: the host-identification
and connection-profile materialization logic (src/apply_conf.rs) and the
config-generation validation and mapping-store logic (src/generate_conf.rs).

The Rust code is shallowly embedded: pure decision logic becomes Lean
functions over explicit data, filesystem effects become explicit state
passing over small state records, and external collaborators (the YAML
serializer, the OS interface listing, OpenOptions file semantics) are
modelled at their documented interface boundary.
-/

set_option autoImplicit false

namespace NMC

/-! ## Data model, apply side (src/apply_conf.rs, lines 14-27)

`Host` and `Interface` mirror the deserialized Host Mapping Store records;
`NetworkInterface` mirrors the `network_interface` crate's record as consumed
by this code: a name plus an optional MAC address string. -/

/-- Models struct Interface (apply_conf.rs lines 23-27). -/
structure Interface where
  logical_name : String
  mac_address : String
  deriving Repr, DecidableEq

/-- Models struct Host (apply_conf.rs lines 16-21); serde renames the field
hostname to `name`. -/
structure Host where
  name : String
  interfaces : List Interface
  deriving Repr, DecidableEq

/-- Models network_interface::NetworkInterface as used here: `name` and the
optional `mac_addr` reported by the OS. -/
structure NetworkInterface where
  name : String
  mac_addr : Option String
  deriving Repr, DecidableEq

/-- Models parse_config (apply_conf.rs lines 45-59) after the YAML
deserialization primitive has produced the host list: every interface's
`mac_address` is mapped to lowercase. -/
def parse_config (hosts : List Host) : List Host :=
  hosts.map fun h =>
    { h with interfaces := h.interfaces.map fun i =>
        { i with mac_address := i.mac_address.toLower } }

/-- The inner closure of identify_host (apply_conf.rs lines 65-69):
`nic.mac_addr.clone().is_some_and(|addr| addr == interface.mac_address)`. -/
def nicMatchesMac (mac : String) (nic : NetworkInterface) : Bool :=
  match nic.mac_addr with
  | some addr => addr == mac
  | none => false

/-- The host predicate of identify_host (apply_conf.rs lines 63-70). -/
def hostMatches (nics : List NetworkInterface) (h : Host) : Bool :=
  h.interfaces.any fun interface => nics.any (nicMatchesMac interface.mac_address)

/-- Models identify_host (apply_conf.rs lines 62-72): the first host, in
store order, one of whose interfaces' MAC addresses equals the MAC address
of some live network interface. -/
def identify_host (hosts : List Host) (nics : List NetworkInterface) : Option Host :=
  hosts.find? (hostMatches nics)

/-- The error message of apply (apply_conf.rs line 37). -/
def NO_MATCH_ERROR : String := "None of the preconfigured hosts match local NICs"

/-- apply_conf.rs line 14. -/
def CONNECTION_FILE_EXT : String := "nmconnection"

/-! ## Connection file materialization model (src/apply_conf.rs, lines 76-140) -/

/-- The NIC predicate of the rename lookup (apply_conf.rs lines 115-118):
MAC equality against the interface record plus a differing name. -/
def nicRenameMatch (interface : Interface) (nic : NetworkInterface) : Bool :=
  nicMatchesMac interface.mac_address nic && nic.name != interface.logical_name

/-- Splits a file-name component at its final dot, returning the part
before it and, when a dot exists, the part after it. -/
def splitLastDot : List Char → List Char × Option (List Char)
  | [] => ([], none)
  | c :: cs =>
    let r := splitLastDot cs
    match r.2 with
    | some ext => (c :: r.1, some ext)
    | none => if c = '.' then ([], some cs) else (c :: cs, none)

/-- Models Rust's Path::file_stem on a file-name component: the portion
before the final dot, except that a name beginning with a dot and holding
no further dot is entirely stem (a hidden file has no extension). -/
def rustFileStem (s : List Char) : List Char :=
  match s with
  | [] => []
  | c :: cs => if c = '.' ∧ '.' ∉ cs then s else (splitLastDot s).1

/-- Models Rust's Path::with_extension (with a nonempty extension) on the
final file-name component, as used on lines 124 and 127 of apply_conf.rs:
the name becomes its file stem followed by a dot and the new extension, so
an existing extension is REPLACED, not appended to. The model covers
non-empty normal components (no path separator, not a bare dot component),
which the profile stems and NIC names occurring here are. -/
def withExtension (name ext : String) : String :=
  String.mk (rustFileStem name.data ++ '.' :: ext.data)

/-- Models the per-file destination resolution of copy_connection_files
(apply_conf.rs lines 110-127): look up the first host interface whose
logical_name equals the file stem; if a live NIC has its MAC and a
different name, rename (replace all occurrences in the content and build
the destination file name from the live name), else build it from the
original stem; either way the file name goes through with_extension.
Returns (destination file name, contents to write). -/
def resolve_destination (host : Host) (nics : List NetworkInterface)
    (stem : String) (contents : String) : String × String :=
  match host.interfaces.find? (fun interface => interface.logical_name == stem) with
  | some interface =>
    match nics.find? (nicRenameMatch interface) with
    | some nic =>
      (withExtension nic.name CONNECTION_FILE_EXT,
        contents.replace interface.logical_name nic.name)
    | none => (withExtension stem CONNECTION_FILE_EXT, contents)
  | none => (withExtension stem CONNECTION_FILE_EXT, contents)

/-- One destination file: its byte content (as a character list) and its
permission mode bits. -/
structure DestFile where
  content : List Char
  mode : Nat
  deriving Repr, DecidableEq

/-- Models `OpenOptions::new().create(true).write(true).mode(0o600).open`
followed by `write_all` (apply_conf.rs lines 129-136), per the documented
POSIX open(2)/write(2) semantics of those flags: without O_TRUNC the write
starts at offset 0 and any bytes of a longer pre-existing file beyond the
written length survive; the mode applies only when the file is created. -/
def writeConnectionFile (existing : Option DestFile) (contents : List Char) : DestFile :=
  match existing with
  | none => { content := contents, mode := 0o600 }
  | some f => { content := contents ++ f.content.drop contents.length, mode := f.mode }

/-- Destination directory state: whether the directory exists and its files,
keyed by file name. -/
structure DestDir where
  exists_ : Bool
  files : List (String × DestFile)
  deriving Repr, DecidableEq

/-- Look up a destination file by name. -/
def lookupDest (files : List (String × DestFile)) (nm : String) : Option DestFile :=
  (files.find? (fun e => e.1 == nm)).map (·.2)

/-- Replace the entry for `nm`, or append it if absent. -/
def storeDest (files : List (String × DestFile)) (nm : String) (f : DestFile) :
    List (String × DestFile) :=
  match files with
  | [] => [(nm, f)]
  | e :: rest => if e.1 == nm then (nm, f) :: rest else e :: storeDest rest nm f

/-- One directory entry of the identified host's source subdirectory. -/
structure SrcEntry where
  isDir : Bool
  stem : String
  ext : String
  contents : String
  deriving Repr, DecidableEq

/-- One iteration of the copy loop (apply_conf.rs lines 86-137): directory
entries and entries whose extension is not `nmconnection` are skipped;
otherwise the resolved content is written via the no-truncate open to the
resolved destination file name (already carrying the connection-file
extension through with_extension). -/
def processEntry (host : Host) (nics : List NetworkInterface)
    (dir : DestDir) (e : SrcEntry) : DestDir :=
  if e.isDir || e.ext != CONNECTION_FILE_EXT then dir
  else
    let r := resolve_destination host nics e.stem e.contents
    { dir with files :=
        storeDest dir.files r.1 (writeConnectionFile (lookupDest dir.files r.1) r.2.data) }

/-- Models copy_connection_files (apply_conf.rs lines 76-140): the
destination directory is created first (line 82), then every entry of the
host's source subdirectory is processed in order. -/
def copy_connection_files (host : Host) (nics : List NetworkInterface)
    (entries : List SrcEntry) (dir : DestDir) : DestDir :=
  entries.foldl (processEntry host nics) { dir with exists_ := true }

/-- Models apply (apply_conf.rs lines 29-43) over an explicit destination
state: parse and normalize the store, identify the host, and only on success
run the materializer; on failure the error is returned and the destination
state is untouched, mirroring that identification happens before any
filesystem write. Returns (error if any, resulting destination state). -/
def applyRun (hosts : List Host) (nics : List NetworkInterface)
    (entries : List SrcEntry) (dir : DestDir) : Option String × DestDir :=
  match identify_host (parse_config hosts) nics with
  | none => (some NO_MATCH_ERROR, dir)
  | some host => (none, copy_connection_files host nics entries dir)

/-! ## Spec-level predicates for identification -/

/-- A string is lowercase in the sense produced by `String.toLower`:
no character is an ASCII uppercase letter. -/
def lowercased (s : String) : Bool :=
  s.data.all fun c => !c.isUpper

/-- Two interface records that differ at most in the letter case of their
MAC addresses. -/
def ifaceCaseEquiv (i j : Interface) : Prop :=
  i.logical_name = j.logical_name ∧ i.mac_address.toLower = j.mac_address.toLower

/-- Two host records that differ at most in the letter case of their
interfaces' MAC addresses. -/
def hostCaseEquiv (g h : Host) : Prop :=
  g.name = h.name ∧ List.Forall₂ ifaceCaseEquiv g.interfaces h.interfaces

/-- Two stores that differ at most in the letter case of MAC addresses. -/
def storeCaseEquiv (hs ks : List Host) : Prop :=
  List.Forall₂ hostCaseEquiv hs ks

/-- Spec-level matching: the host's interface list shares at least one MAC
address with a live interface. Only MAC addresses are mentioned. -/
def HostSharesMac (nics : List NetworkInterface) (h : Host) : Prop :=
  ∃ i ∈ h.interfaces, ∃ nic ∈ nics, nic.mac_addr = some i.mac_address

/-- Rewrite every interface's logical name of a host through `f`, leaving
MAC addresses untouched; used to state that logical names play no role in
identification. -/
def renameLogical (f : String → String) (h : Host) : Host :=
  { h with interfaces := h.interfaces.map fun i =>
      { i with logical_name := f i.logical_name } }

end NMC

namespace NMC.Gen

/-! ## Data model and validation, generate side (src/generate_conf.rs)

`Interface` mirrors crate::types::Interface as used by generate_conf.rs:
a logical name, an optional MAC address, and the interface type rendered as
a string (`InterfaceType::to_string()`); the ethernet type renders as
"ethernet" and the loopback type as "loopback". -/

/-- Models crate::types::Interface (fields as used in generate_conf.rs and
its tests). -/
structure Interface where
  logical_name : String
  mac_address : Option String
  interface_type : String
  deriving Repr, DecidableEq

/-- Models one nmstate interface as consumed by extract_interfaces
(generate_conf.rs lines 88-99): its name, its type rendered as a string,
and its optional base-interface MAC address. -/
structure SrcInterface where
  name : String
  iface_type : String
  mac_address : Option String
  deriving Repr, DecidableEq

/-- Models extract_interfaces (generate_conf.rs lines 88-99): drop
loopback-type interfaces, keep all others in order. -/
def extract_interfaces (interfaces : List SrcInterface) : List Interface :=
  (interfaces.filter fun i => i.iface_type != "loopback").map fun i =>
    { logical_name := i.name, mac_address := i.mac_address, interface_type := i.iface_type }

/-- Models validate_interfaces (generate_conf.rs lines 101-125). -/
def validate_interfaces (interfaces : List Interface) : Except String Unit :=
  let ethernet_interfaces := interfaces.filter fun i => i.interface_type == "ethernet"
  if ethernet_interfaces.isEmpty then
    .error "No Ethernet interfaces were provided"
  else
    let missing := (ethernet_interfaces.filter fun i => i.mac_address.isNone).map
      (fun i => i.logical_name)
    if missing.isEmpty then
      .ok ()
    else
      .error ("Detected Ethernet interfaces without a MAC address: "
        ++ String.intercalate ", " missing)

end NMC.Gen

namespace NMC.Map

/-! ## Host Mapping Store serialization model (src/generate_conf.rs lines
143-161 together with src/apply_conf.rs lines 45-59)

store_network_mapping appends the YAML serialization of a one-element host
sequence to the mapping file; parse_config deserializes the whole file as
one sequence. The YAML serializer/parser pair is the external serialization
primitive; it is modelled here at the line level in the record layout stated
in spec section 6 (block sequence items at column 0, two-space-indented
fields, `null` for a missing MAC). A file is a list of lines and a line is
a list of characters. -/

/-- A line of the mapping file. -/
abbrev Str := List Char

/-- Mapping-store interface record (crate::types::Interface). -/
structure IfaceRec where
  logical_name : Str
  mac_address : Option Str
  interface_type : Str
  deriving Repr, DecidableEq

/-- Mapping-store host record (crate::types::Host). -/
structure HostRec where
  hostname : Str
  interfaces : List IfaceRec
  deriving Repr, DecidableEq

/-- The serialized mac_address field line: `null` for a missing MAC. -/
def macLine : Option Str → Str
  | some m => "    mac_address: ".data ++ m
  | none => "    mac_address: null".data

/-- The three serialized lines of one interface record. -/
def emitIface (i : IfaceRec) : List Str :=
  [ "  - logical_name: ".data ++ i.logical_name,
    macLine i.mac_address,
    "    interface_type: ".data ++ i.interface_type ]

/-- The serialized lines of one host record: one top-level block-sequence
item continuing the implicit top-level list. -/
def emitHost (h : HostRec) : List Str :=
  ("- hostname: ".data ++ h.hostname) :: "  interfaces:".data
    :: (h.interfaces.map emitIface).flatten

/-- Models store_network_mapping (generate_conf.rs lines 143-161): open the
mapping file in append mode and write the serialization of the one-element
sequence `[host]` after the existing content. -/
def store_network_mapping (fileLines : List Str) (h : HostRec) : List Str :=
  fileLines ++ emitHost h

/-- A value string that stays on its own line. -/
def noNewline (s : Str) : Prop := '\n' ∉ s

/-- An interface record whose field values serialize as plain one-line
scalars: no newline inside any value, and a present MAC is not the literal
`null` (which the serializer would have to quote). -/
def wfIface (i : IfaceRec) : Prop :=
  noNewline i.logical_name ∧ noNewline i.interface_type ∧
  ∀ m, i.mac_address = some m → noNewline m ∧ m ≠ "null".data

/-- A host record as produced by the Generator for the mapping store: plain
one-line hostname, a nonempty interface list (guaranteed by validation,
which requires an ethernet interface), and well-formed interfaces. -/
def wfHost (h : HostRec) : Prop :=
  noNewline h.hostname ∧ h.interfaces ≠ [] ∧ ∀ i ∈ h.interfaces, wfIface i

/-- Drop an expected leading character sequence, or fail. -/
def stripLead : Str → Str → Option Str
  | [], s => some s
  | _ :: _, [] => none
  | p :: ps, c :: cs => if p = c then stripLead ps cs else none

/-- Parse a serialized mac_address field value: `null` denotes a missing
MAC. -/
def parseMacVal (v : Str) : Option Str :=
  if v = "null".data then none else some v

/-- Parse consecutive serialized interface records, returning them together
with the remaining lines. Fails on a malformed interface item. -/
def parseIfaces : List Str → Option (List IfaceRec × List Str)
  | l1 :: l2 :: l3 :: rest =>
    match stripLead "  - logical_name: ".data l1 with
    | some ln =>
      match stripLead "    mac_address: ".data l2,
            stripLead "    interface_type: ".data l3 with
      | some mv, some tv =>
        match parseIfaces rest with
        | some (ifs, rem) => some (⟨ln, parseMacVal mv, tv⟩ :: ifs, rem)
        | none => none
      | _, _ => none
    | none => some ([], l1 :: l2 :: l3 :: rest)
  | lines => some ([], lines)

theorem parseIfaces_rest_length :
    ∀ (lines : List Str) (ifs : List IfaceRec) (rem : List Str),
      parseIfaces lines = some (ifs, rem) → rem.length ≤ lines.length := by
  intro lines
  induction lines using parseIfaces.induct with
  | case1 l1 l2 l3 rest ln hln mv tv hmv htv ifs0 rem0 hrec ih =>
    intro ifs rem h
    rw [parseIfaces, hln, hmv, htv, hrec] at h
    simp only [Option.some.injEq, Prod.mk.injEq] at h
    obtain ⟨-, h2⟩ := h
    subst h2
    have := ih ifs0 rem0 hrec
    simp only [List.length_cons]
    omega
  | case2 l1 l2 l3 rest ln hln mv tv hmv htv hrec =>
    intro ifs rem h
    rw [parseIfaces, hln, hmv, htv, hrec] at h
    exact absurd h (by simp)
  | case3 l1 l2 l3 rest ln hln hfail =>
    intro ifs rem h
    rw [parseIfaces, hln] at h
    rcases hv : stripLead "    mac_address: ".data l2 with _ | mv <;>
      rcases ht : stripLead "    interface_type: ".data l3 with _ | tv <;>
        rw [hv, ht] at h <;> simp_all
  | case4 l1 l2 l3 rest hln =>
    intro ifs rem h
    rw [parseIfaces, hln] at h
    simp only [Option.some.injEq, Prod.mk.injEq] at h
    simp [← h.2]
  | case5 lines hshape =>
    intro ifs rem h
    rw [parseIfaces] at h
    · simp only [Option.some.injEq, Prod.mk.injEq] at h
      simp [← h.2]
    · exact hshape

/-- Parse the whole mapping file as a sequence of host records, mirroring
the read contract of parse_config: the entire file is one sequence. -/
def parseHosts (lines : List Str) : Option (List HostRec) :=
  match lines with
  | [] => some []
  | l1 :: rest =>
    match stripLead "- hostname: ".data l1 with
    | none => none
    | some name =>
      match rest with
      | [] => none
      | l2 :: rest2 =>
        if l2 = "  interfaces:".data then
          match hrec : parseIfaces rest2 with
          | none => none
          | some (ifs, rem) =>
            match parseHosts rem with
            | none => none
            | some hosts => some (⟨name, ifs⟩ :: hosts)
        else none
termination_by lines.length
decreasing_by
  have := parseIfaces_rest_length rest2 ifs rem hrec
  simp only [List.length_cons]
  omega

end NMC.Map

namespace NMC

/-! ## Character-level lowercase facts -/

theorem toNat_ofNat_of_valid {n : Nat} (h : Nat.isValidChar n) :
    (Char.ofNat n).toNat = n := by
  unfold Char.ofNat
  rw [dif_pos h]
  simp [Char.ofNatAux, Char.toNat, UInt32.toNat]

theorem isUpper_iff_toNat (c : Char) :
    c.isUpper = true ↔ 65 ≤ c.toNat ∧ c.toNat ≤ 90 := by
  simp [Char.isUpper, UInt32.le_def, BitVec.le_def, Char.toNat, UInt32.toNat]

theorem toLower_isUpper_eq_false (c : Char) :
    (Char.toLower c).isUpper = false := by
  unfold Char.toLower
  dsimp only
  split
  case isTrue h =>
    have hv : Nat.isValidChar (c.toNat + 32) := Or.inl (by omega)
    have ht := toNat_ofNat_of_valid hv
    rw [Bool.eq_false_iff]
    intro hu
    rw [isUpper_iff_toNat] at hu
    omega
  case isFalse h =>
    rw [Bool.eq_false_iff]
    intro hu
    rw [isUpper_iff_toNat] at hu
    exact h ⟨hu.1, hu.2⟩

theorem lowercased_toLower (s : String) : lowercased s.toLower = true := by
  rw [String.toLower, String.map_eq, lowercased]
  simp only [List.all_eq_true, List.mem_map]
  rintro c ⟨d, _, rfl⟩
  simp [toLower_isUpper_eq_false]

/-- Computation rule for `String.toLower` in terms of the character list,
so that concrete instances evaluate inside the kernel. -/
theorem toLower_data (s : String) :
    s.toLower = String.mk (s.data.map Char.toLower) := by
  rw [String.toLower, String.map_eq]

/-! ## C1: case sensitivity of MAC matching -/

theorem interfaces_lower_eq_of_caseEquiv {xs ys : List Interface}
    (h : List.Forall₂ ifaceCaseEquiv xs ys) :
    (xs.map fun i => { i with mac_address := i.mac_address.toLower }) =
      (ys.map fun i => { i with mac_address := i.mac_address.toLower }) := by
  induction h with
  | nil => rfl
  | @cons a b xs ys hi _ ihi =>
    obtain ⟨h1, h2⟩ := hi
    cases a; cases b
    simp_all [List.map_cons]

theorem parse_config_eq_of_caseEquiv {hs ks : List Host}
    (h : storeCaseEquiv hs ks) : parse_config hs = parse_config ks := by
  unfold parse_config
  induction h with
  | nil => rfl
  | @cons a b hs ks hh _ ih =>
    obtain ⟨hname, hifs⟩ := hh
    have := interfaces_lower_eq_of_caseEquiv hifs
    cases a; cases b
    simp_all [List.map_cons]

/-- C1, amended: after parsing the Host Mapping Store every stored
interface's `mac_address` is lowercase, and host identification is
unaffected by the letter case in which MAC addresses appear in the store.
(The letter case of the MAC addresses reported by the OS for the live
interfaces is, contrary to the original claim, significant; see the
counterexample.) -/
theorem c1_mac_case_insensitive_in_store (hosts1 hosts2 : List Host)
    (nics : List NetworkInterface) (hequiv : storeCaseEquiv hosts1 hosts2) :
    (∀ h ∈ parse_config hosts1, ∀ i ∈ h.interfaces, lowercased i.mac_address = true) ∧
    identify_host (parse_config hosts1) nics = identify_host (parse_config hosts2) nics := by
  constructor
  · intro h hmem i imem
    unfold parse_config at hmem
    obtain ⟨h0, _, rfl⟩ := List.mem_map.mp hmem
    obtain ⟨i0, _, rfl⟩ := List.mem_map.mp imem
    exact lowercased_toLower i0.mac_address
  · rw [parse_config_eq_of_caseEquiv hequiv]

/-- C1 counterexample: the same store with its live interface set reported
once in lowercase and once in uppercase (the two MACs are equal up to case):
the lowercase live MAC matches, the uppercase one does not, because live
MACs are compared verbatim against the lowercased store. -/
theorem c1_counterexample :
    "AA:BB:CC:DD:EE:FF".toLower = "aa:bb:cc:dd:ee:ff".toLower ∧
    identify_host (parse_config [⟨"node1", [⟨"eth0", "aa:bb:cc:dd:ee:ff"⟩]⟩])
      [⟨"enp1s0", some "aa:bb:cc:dd:ee:ff"⟩] =
      some ⟨"node1", [⟨"eth0", "aa:bb:cc:dd:ee:ff"⟩]⟩ ∧
    identify_host (parse_config [⟨"node1", [⟨"eth0", "aa:bb:cc:dd:ee:ff"⟩]⟩])
      [⟨"enp1s0", some "AA:BB:CC:DD:EE:FF"⟩] = none := by
  refine ⟨?_, ?_, ?_⟩ <;>
    simp only [parse_config, toLower_data, List.map_cons, List.map_nil] <;> decide

/-- Witness for `c1_mac_case_insensitive_in_store` at a concrete store with
mixed-case and lowercase MAC spellings. -/
theorem c1_witness :
    (∀ h ∈ parse_config [⟨"node1", [⟨"eth0", "AA:BB:CC:DD:EE:FF"⟩]⟩],
      ∀ i ∈ h.interfaces, lowercased i.mac_address = true) ∧
    identify_host (parse_config [⟨"node1", [⟨"eth0", "AA:BB:CC:DD:EE:FF"⟩]⟩])
        [⟨"enp1s0", some "aa:bb:cc:dd:ee:ff"⟩] =
      identify_host (parse_config [⟨"node1", [⟨"eth0", "aa:bb:cc:dd:ee:ff"⟩]⟩])
        [⟨"enp1s0", some "aa:bb:cc:dd:ee:ff"⟩] :=
  c1_mac_case_insensitive_in_store
    [⟨"node1", [⟨"eth0", "AA:BB:CC:DD:EE:FF"⟩]⟩]
    [⟨"node1", [⟨"eth0", "aa:bb:cc:dd:ee:ff"⟩]⟩]
    [⟨"enp1s0", some "aa:bb:cc:dd:ee:ff"⟩]
    (List.Forall₂.cons
      ⟨rfl, List.Forall₂.cons
        ⟨rfl, by simp only [toLower_data]; decide⟩ List.Forall₂.nil⟩
      List.Forall₂.nil)

/-! ## C2: identification is first-match on MAC equality only -/

theorem nicMatchesMac_iff (mac : String) (nic : NetworkInterface) :
    nicMatchesMac mac nic = true ↔ nic.mac_addr = some mac := by
  unfold nicMatchesMac
  cases h : nic.mac_addr <;> simp

theorem hostMatches_iff (nics : List NetworkInterface) (h : Host) :
    hostMatches nics h = true ↔ HostSharesMac nics h := by
  unfold hostMatches HostSharesMac
  simp only [List.any_eq_true, nicMatchesMac_iff]

theorem hostMatches_renameLogical (nics : List NetworkInterface)
    (f : String → String) (h : Host) :
    hostMatches nics (renameLogical f h) = hostMatches nics h := by
  unfold hostMatches renameLogical
  rw [List.any_map]
  rfl

theorem identify_host_renameLogical (hosts : List Host)
    (nics : List NetworkInterface) (f : String → String) :
    identify_host (hosts.map (renameLogical f)) nics =
      (identify_host hosts nics).map (renameLogical f) := by
  unfold identify_host
  rw [List.find?_map]
  have hfun : hostMatches nics ∘ renameLogical f = hostMatches nics := by
    funext h
    exact hostMatches_renameLogical nics f h
  rw [hfun]

/-- C2: host identification returns the first host, in store order, whose
interface list shares at least one MAC address with a live interface
(`HostSharesMac` mentions MAC addresses only); it returns no host exactly
when no host shares a MAC with a live interface; rewriting every logical
name leaves the identification outcome unchanged; and when identification
fails, apply fails with the no-matching-host error, leaving the destination
untouched. -/
theorem c2_identify_first_match (hosts : List Host) (nics : List NetworkInterface) :
    (identify_host hosts nics = none ↔ ∀ h ∈ hosts, ¬ HostSharesMac nics h) ∧
    (∀ h, identify_host hosts nics = some h →
      h ∈ hosts ∧ HostSharesMac nics h ∧
      ∃ pre post, hosts = pre ++ h :: post ∧ ∀ g ∈ pre, ¬ HostSharesMac nics g) ∧
    ((∃ h ∈ hosts, HostSharesMac nics h) → ∃ h, identify_host hosts nics = some h) ∧
    (∀ f, identify_host (hosts.map (renameLogical f)) nics =
      (identify_host hosts nics).map (renameLogical f)) ∧
    (∀ entries dir, identify_host (parse_config hosts) nics = none →
      applyRun hosts nics entries dir = (some NO_MATCH_ERROR, dir)) := by
  refine ⟨?_, ?_, ?_, ?_, ?_⟩
  · simp [identify_host, List.find?_eq_none, hostMatches_iff]
  · intro h hfind
    have hmem := List.mem_of_find?_eq_some hfind
    rw [identify_host, List.find?_eq_some] at hfind
    obtain ⟨hp, pre, post, rfl, hpre⟩ := hfind
    refine ⟨hmem, (hostMatches_iff nics h).mp hp, pre, post, rfl, ?_⟩
    intro g hg
    have := hpre g hg
    simp only [Bool.not_eq_eq_eq_not, Bool.not_true] at this
    exact fun hc => by
      rw [← hostMatches_iff nics g] at hc
      simp [this] at hc
  · intro ⟨h, hmem, hshares⟩
    have : (hosts.find? (hostMatches nics)).isSome := by
      rw [List.find?_isSome]
      exact ⟨h, hmem, (hostMatches_iff nics h).mpr hshares⟩
    exact Option.isSome_iff_exists.mp this
  · exact identify_host_renameLogical hosts nics
  · intro entries dir hnone
    unfold applyRun
    rw [hnone]

/-- Witness for `c2_identify_first_match`: a two-host store where only the
second host matches the live NIC set; identification returns it, the first
host is certified non-matching. -/
theorem c2_witness :
    (⟨"h2", [⟨"eth1", "bb"⟩]⟩ : Host) ∈
        [(⟨"h1", [⟨"eth0", "aa"⟩]⟩ : Host), ⟨"h2", [⟨"eth1", "bb"⟩]⟩] ∧
    HostSharesMac [⟨"n1", some "bb"⟩] ⟨"h2", [⟨"eth1", "bb"⟩]⟩ ∧
    ∃ pre post,
      [(⟨"h1", [⟨"eth0", "aa"⟩]⟩ : Host), ⟨"h2", [⟨"eth1", "bb"⟩]⟩] =
        pre ++ (⟨"h2", [⟨"eth1", "bb"⟩]⟩ : Host) :: post ∧
      ∀ g ∈ pre, ¬ HostSharesMac [⟨"n1", some "bb"⟩] g :=
  (c2_identify_first_match
    [⟨"h1", [⟨"eth0", "aa"⟩]⟩, ⟨"h2", [⟨"eth1", "bb"⟩]⟩]
    [⟨"n1", some "bb"⟩]).2.1
    ⟨"h2", [⟨"eth1", "bb"⟩]⟩ (by decide)

/-! ## C10: live interfaces without a MAC address never match -/

theorem nicMatchesMac_isSome {mac : String} {nic : NetworkInterface}
    (h : nicMatchesMac mac nic = true) : nic.mac_addr.isSome := by
  unfold nicMatchesMac at h
  cases hm : nic.mac_addr <;> simp [hm] at h ⊢

theorem nicRenameMatch_isSome {interface : Interface} {nic : NetworkInterface}
    (h : nicRenameMatch interface nic = true) : nic.mac_addr.isSome := by
  unfold nicRenameMatch at h
  exact nicMatchesMac_isSome ((Bool.and_eq_true _ _).mp h).1

theorem any_filter_of_imp {α : Type} (p q : α → Bool)
    (himp : ∀ a, p a = true → q a = true) :
    ∀ l : List α, (l.filter q).any p = l.any p := by
  intro l
  induction l with
  | nil => rfl
  | cons x xs ih =>
    by_cases hq : q x = true
    · simp [List.filter_cons, hq, List.any_cons, ih]
    · have hp : p x = false := by
        cases hpx : p x
        · rfl
        · exact absurd (himp x hpx) hq
      simp [List.filter_cons, hq, List.any_cons, ih, hp]

theorem find?_filter_of_imp {α : Type} (p q : α → Bool)
    (himp : ∀ a, p a = true → q a = true) :
    ∀ l : List α, (l.filter q).find? p = l.find? p := by
  intro l
  induction l with
  | nil => rfl
  | cons x xs ih =>
    by_cases hq : q x = true
    · by_cases hp : p x = true
      · simp [List.filter_cons, hq, List.find?_cons_of_pos, hp]
      · simp [List.filter_cons, hq, hp, List.find?_cons_of_neg, ih]
    · have hp : p x = false := by
        cases hpx : p x
        · rfl
        · exact absurd (himp x hpx) hq
      simp [List.filter_cons, hq, hp, List.find?_cons_of_neg, ih]

theorem hostMatches_filterSome (nics : List NetworkInterface) (h : Host) :
    hostMatches (nics.filter fun nic => nic.mac_addr.isSome) h = hostMatches nics h := by
  unfold hostMatches
  congr 1
  funext i
  exact any_filter_of_imp _ _ (fun nic => nicMatchesMac_isSome) nics

/-- C10: a live interface whose MAC address is absent never influences the
outcome: identification and destination resolution are unchanged when all
MAC-less live interfaces are removed, and the NIC selected for a rename
always carries a MAC address. -/
theorem c10_none_mac_never_matches (hosts : List Host) (nics : List NetworkInterface) :
    identify_host hosts (nics.filter fun nic => nic.mac_addr.isSome) =
      identify_host hosts nics ∧
    (∀ host stem contents,
      resolve_destination host (nics.filter fun nic => nic.mac_addr.isSome) stem contents =
        resolve_destination host nics stem contents) ∧
    (∀ interface nic, nics.find? (nicRenameMatch interface) = some nic →
      nic.mac_addr.isSome) := by
  refine ⟨?_, ?_, ?_⟩
  · unfold identify_host
    congr 1
    funext h
    exact hostMatches_filterSome nics h
  · intro host stem contents
    cases hfi : host.interfaces.find? (fun interface => interface.logical_name == stem) with
    | none => simp only [resolve_destination, hfi]
    | some interface =>
      simp only [resolve_destination, hfi]
      rw [find?_filter_of_imp (nicRenameMatch interface) _
        (fun nic => nicRenameMatch_isSome) nics]
  · intro interface nic hfind
    exact nicRenameMatch_isSome (List.find?_some hfind)

/-- Witness for `c10_none_mac_never_matches`: with a MAC-less NIC first in
the live set, the rename lookup skips it and selects the NIC that carries
the matching MAC. -/
theorem c10_witness :
    identify_host [(⟨"h1", [⟨"eth0", "bb"⟩]⟩ : Host)]
        ([⟨"lo", none⟩, ⟨"n1", some "bb"⟩].filter fun nic => nic.mac_addr.isSome) =
      identify_host [(⟨"h1", [⟨"eth0", "bb"⟩]⟩ : Host)] [⟨"lo", none⟩, ⟨"n1", some "bb"⟩] ∧
    (⟨"n1", some "bb"⟩ : NetworkInterface).mac_addr.isSome :=
  ⟨(c10_none_mac_never_matches [⟨"h1", [⟨"eth0", "bb"⟩]⟩]
      [⟨"lo", none⟩, ⟨"n1", some "bb"⟩]).1,
   (c10_none_mac_never_matches [⟨"h1", [⟨"eth0", "bb"⟩]⟩]
      [⟨"lo", none⟩, ⟨"n1", some "bb"⟩]).2.2 ⟨"eth0", "bb"⟩ ⟨"n1", some "bb"⟩ (by decide)⟩

/-! ## C4: when the materializer renames a profile -/

theorem nicRenameMatch_iff (interface : Interface) (nic : NetworkInterface) :
    nicRenameMatch interface nic = true ↔
      nic.mac_addr = some interface.mac_address ∧ nic.name ≠ interface.logical_name := by
  unfold nicRenameMatch
  rw [Bool.and_eq_true, nicMatchesMac_iff, bne_iff_ne]

theorem splitLastDot_no_dot {s : List Char} (h : '.' ∉ s) :
    splitLastDot s = (s, none) := by
  induction s with
  | nil => rfl
  | cons c cs ih =>
    have hc : c ≠ '.' := fun hq => h (hq ▸ List.mem_cons_self c cs)
    have hcs : '.' ∉ cs := fun hq => h (List.mem_cons_of_mem c hq)
    simp [splitLastDot, ih hcs, hc]

theorem splitLastDot_append {suffix : List Char} (h : '.' ∉ suffix) :
    ∀ st : List Char, splitLastDot (st ++ '.' :: suffix) = (st, some suffix) := by
  intro st
  induction st with
  | nil => simp [splitLastDot, splitLastDot_no_dot h]
  | cons c st2 ih => simp [splitLastDot, ih]

theorem withExtension_no_dot {base : String} (h : '.' ∉ base.data) (ext : String) :
    withExtension base ext = String.mk (base.data ++ '.' :: ext.data) := by
  unfold withExtension
  cases hb : base.data with
  | nil => rfl
  | cons c cs =>
    have hall : '.' ∉ (c :: cs) := hb ▸ h
    have hc : c ≠ '.' := fun hq => hall (hq ▸ List.mem_cons_self c cs)
    simp only [rustFileStem]
    rw [if_neg (fun hq => hc hq.1), splitLastDot_no_dot hall]

theorem withExtension_replaces {st suffix : List Char} (hst : st ≠ [])
    (hsuf : '.' ∉ suffix) (ext : String) :
    withExtension (String.mk (st ++ '.' :: suffix)) ext =
      String.mk (st ++ '.' :: ext.data) := by
  cases st with
  | nil => exact absurd rfl hst
  | cons c st2 =>
    show String.mk (rustFileStem (c :: (st2 ++ '.' :: suffix)) ++ '.' :: ext.data) =
      String.mk ((c :: st2) ++ '.' :: ext.data)
    simp only [rustFileStem]
    rw [if_neg (fun hq => hq.2 (List.mem_append_right st2 (List.mem_cons_self '.' suffix)))]
    rw [show (c :: (st2 ++ '.' :: suffix)) = ((c :: st2) ++ '.' :: suffix) from rfl,
      splitLastDot_append hsuf]

/-- C4, amended: the materializer consults only the FIRST host interface
whose logical_name equals the file's stem. If no such interface exists, or
no live interface carries the MAC of that first interface under a different
name, the content is unchanged and the destination file name is built from
the original stem; if some live interface does, the first such live
interface is used: the destination file name is built from its name and
every occurrence of the logical name in the content is replaced by it. In
both cases the file name is built by with_extension, which REPLACES an
existing extension: a dot-free resolved name maps to name.nmconnection,
while a dotted one such as eth0.1365 maps to eth0.nmconnection, so neither
the original stem nor the live name is kept verbatim in the dotted case
(see the counterexample for the original claim). -/
theorem c4_rename_characterization (host : Host) (nics : List NetworkInterface)
    (stem contents : String) :
    ((¬ ∃ i, host.interfaces.find? (fun interface => interface.logical_name == stem) =
          some i ∧
        ∃ nic ∈ nics, nic.mac_addr = some i.mac_address ∧ nic.name ≠ i.logical_name) →
      resolve_destination host nics stem contents =
        (withExtension stem CONNECTION_FILE_EXT, contents)) ∧
    (∀ i, host.interfaces.find? (fun interface => interface.logical_name == stem) = some i →
      i.logical_name = stem ∧
      ((∃ nic ∈ nics, nic.mac_addr = some i.mac_address ∧ nic.name ≠ i.logical_name) →
        ∃ nic, nics.find? (nicRenameMatch i) = some nic ∧
          nic.mac_addr = some i.mac_address ∧ nic.name ≠ stem ∧
          resolve_destination host nics stem contents =
            (withExtension nic.name CONNECTION_FILE_EXT, contents.replace stem nic.name))) ∧
    ((∃ i ∈ host.interfaces, i.logical_name = stem) →
      ∃ i, host.interfaces.find? (fun interface => interface.logical_name == stem) =
        some i) ∧
    (∀ base : String, '.' ∉ base.data →
      withExtension base CONNECTION_FILE_EXT =
        String.mk (base.data ++ '.' :: CONNECTION_FILE_EXT.data)) ∧
    (∀ st suffix : List Char, st ≠ [] → '.' ∉ suffix →
      withExtension (String.mk (st ++ '.' :: suffix)) CONNECTION_FILE_EXT =
        String.mk (st ++ '.' :: CONNECTION_FILE_EXT.data)) := by
  refine ⟨?_, ?_, ?_, fun base hb => withExtension_no_dot hb _,
    fun st suffix hst hsuf => withExtension_replaces hst hsuf _⟩
  · intro hno
    cases hfi : host.interfaces.find? (fun interface => interface.logical_name == stem) with
    | none => simp only [resolve_destination, hfi]
    | some i =>
      have hnone : nics.find? (nicRenameMatch i) = none := by
        rw [List.find?_eq_none]
        intro nic hmem hmatch
        exact hno ⟨i, hfi, nic, hmem, (nicRenameMatch_iff i nic).mp hmatch⟩
      simp only [resolve_destination, hfi, hnone]
  · intro i hfi
    have hstem : i.logical_name = stem := by
      have := List.find?_some hfi
      simpa using this
    refine ⟨hstem, ?_⟩
    intro ⟨nic0, hmem0, hmac0, hname0⟩
    have hsome : (nics.find? (nicRenameMatch i)).isSome := by
      rw [List.find?_isSome]
      exact ⟨nic0, hmem0, (nicRenameMatch_iff i nic0).mpr ⟨hmac0, hname0⟩⟩
    obtain ⟨nic, hfind⟩ := Option.isSome_iff_exists.mp hsome
    obtain ⟨hmac, hname⟩ := (nicRenameMatch_iff i nic).mp (List.find?_some hfind)
    refine ⟨nic, hfind, hmac, by rw [← hstem]; exact hname, ?_⟩
    simp only [resolve_destination, hfi, hfind, hstem]
  · intro ⟨i, hmem, hstem⟩
    have hsome : (host.interfaces.find?
        (fun interface => interface.logical_name == stem)).isSome := by
      rw [List.find?_isSome]
      exact ⟨i, hmem, by simp [hstem]⟩
    exact Option.isSome_iff_exists.mp hsome

/-- C4 counterexample to the original claim, in two parts. First, the host
has two interfaces with logical name eth0 and the live NIC carries the MAC
of the SECOND one under a different name, so conditions (a)-(c) of the
claim hold, yet the materializer, which consults only the first eth0
interface, does not rename (the destination name is built from the stem,
not from the live name enp1). Second, with a dotted stem eth0.1365 and no
rename, the destination file is eth0.nmconnection, not
eth0.1365.nmconnection: with_extension replaces the .1365 part, so the
filename does not keep the original stem either. -/
theorem c4_counterexample :
    (∃ i ∈ (⟨"h", [⟨"eth0", "m1"⟩, ⟨"eth0", "m2"⟩]⟩ : Host).interfaces,
      i.logical_name = "eth0" ∧
      ∃ nic ∈ [(⟨"enp1", some "m2"⟩ : NetworkInterface)],
        nic.mac_addr = some i.mac_address ∧ nic.name ≠ i.logical_name) ∧
    resolve_destination ⟨"h", [⟨"eth0", "m1"⟩, ⟨"eth0", "m2"⟩]⟩
      [⟨"enp1", some "m2"⟩] "eth0" "cfg eth0" = ("eth0.nmconnection", "cfg eth0") ∧
    resolve_destination ⟨"h", [⟨"eth0.1365", "m1"⟩]⟩ [] "eth0.1365" "cfg" =
      ("eth0.nmconnection", "cfg") := by
  refine ⟨by decide, by decide, by decide⟩

/-- Witness for `c4_rename_characterization`: a genuine rename case, where
the live NIC carries the preconfigured MAC under the name enp1. -/
theorem c4_witness :
    ∃ nic, [(⟨"enp1", some "m"⟩ : NetworkInterface)].find?
        (nicRenameMatch ⟨"eth0", "m"⟩) = some nic ∧
      nic.mac_addr = some "m" ∧ nic.name ≠ "eth0" ∧
      resolve_destination ⟨"h", [⟨"eth0", "m"⟩]⟩ [⟨"enp1", some "m"⟩] "eth0" "x eth0" =
        (withExtension nic.name CONNECTION_FILE_EXT, "x eth0".replace "eth0" nic.name) :=
  ((c4_rename_characterization ⟨"h", [⟨"eth0", "m"⟩]⟩ [⟨"enp1", some "m"⟩]
      "eth0" "x eth0").2.1 ⟨"eth0", "m"⟩ (by decide)).2 (by decide)

/-! ## C3: destination files are opened without truncation -/

/-- C3 (code bug): `copy_connection_files` opens the destination with
create+write+mode(0o600) but without truncate (apply_conf.rs lines
129-133). Creating a fresh file does yield exactly the new content with
mode 0o600, but writing over a longer pre-existing file leaves the stale
tail of the old content in place and keeps the old permission mode,
contradicting the specified truncate/overwrite behaviour. -/
theorem c3_no_truncate_bug :
    (writeConnectionFile (some ⟨"0123456789".data, 0o644⟩) "AB".data).content =
      "AB23456789".data ∧
    "AB23456789".data ≠ "AB".data ∧
    (writeConnectionFile (some ⟨"0123456789".data, 0o644⟩) "AB".data).mode = 0o644 ∧
    writeConnectionFile none "AB".data = ⟨"AB".data, 0o600⟩ := by
  refine ⟨by decide, by decide, by decide, by decide⟩

/-! ## C5: a failed identification writes nothing -/

/-- C5: if no live interface MAC matches any host of the parsed store, apply
returns the no-matching-host error and the destination state — including
whether the destination directory exists — is exactly the input state: the
materializer (which would create the directory first) is never reached. -/
theorem c5_no_match_leaves_fs_untouched (hosts : List Host)
    (nics : List NetworkInterface) (entries : List SrcEntry) (dir : DestDir)
    (hnone : ∀ h ∈ parse_config hosts, ¬ HostSharesMac nics h) :
    applyRun hosts nics entries dir = (some NO_MATCH_ERROR, dir) := by
  have hid : identify_host (parse_config hosts) nics = none := by
    rw [identify_host, List.find?_eq_none]
    intro h hm hmt
    exact hnone h hm ((hostMatches_iff nics h).mp hmt)
  unfold applyRun
  rw [hid]

/-- Witness for `c5_no_match_leaves_fs_untouched`: a store whose single MAC
does not occur in the live set; the destination directory does not exist
before and still does not after. -/
theorem c5_witness :
    applyRun [⟨"h1", [⟨"eth0", "aa"⟩]⟩] [⟨"n1", some "bb"⟩]
      [⟨false, "eth0", "nmconnection", "cfg"⟩] ⟨false, []⟩ =
      (some NO_MATCH_ERROR, ⟨false, []⟩) :=
  c5_no_match_leaves_fs_untouched [⟨"h1", [⟨"eth0", "aa"⟩]⟩] [⟨"n1", some "bb"⟩]
    [⟨false, "eth0", "nmconnection", "cfg"⟩] ⟨false, []⟩
    (by
      simp only [parse_config, toLower_data, List.map_cons, List.map_nil, HostSharesMac]
      decide)

end NMC

namespace NMC.Gen

/-! ## C6 and C7: interface validation -/

/-- C6: validation fails with the fixed no-Ethernet error whenever the list
contains no ethernet-type interface, whatever other types are present; and
it succeeds whenever at least one ethernet-type interface is present and
every ethernet-type interface carries a MAC address. -/
theorem c6_validate_ethernet_presence (interfaces : List Interface) :
    ((∀ i ∈ interfaces, i.interface_type ≠ "ethernet") →
      validate_interfaces interfaces = .error "No Ethernet interfaces were provided") ∧
    ((∃ i ∈ interfaces, i.interface_type = "ethernet") →
      (∀ i ∈ interfaces, i.interface_type = "ethernet" → i.mac_address.isSome) →
      validate_interfaces interfaces = .ok ()) := by
  constructor
  · intro hno
    have hempty : interfaces.filter (fun i => i.interface_type == "ethernet") = [] := by
      rw [List.filter_eq_nil_iff]
      intro i hi
      simp [hno i hi]
    simp [validate_interfaces, hempty]
  · intro ⟨i0, hmem0, heth0⟩ hmac
    have hne : interfaces.filter (fun i => i.interface_type == "ethernet") ≠ [] := by
      intro hq
      have hm : i0 ∈ interfaces.filter (fun i => i.interface_type == "ethernet") := by
        rw [List.mem_filter]
        exact ⟨hmem0, by simp [heth0]⟩
      simp [hq] at hm
    have hmiss : ((interfaces.filter fun i => i.interface_type == "ethernet").filter
        fun i => i.mac_address.isNone) = [] := by
      rw [List.filter_eq_nil_iff]
      intro i hi
      rw [List.mem_filter] at hi
      have hs := hmac i hi.1 (by simpa using hi.2)
      simp [Option.isNone_iff_eq_none]
      exact Option.isSome_iff_ne_none.mp hs
    simp [validate_interfaces, hne, hmiss]

/-- Witness for `c6_validate_ethernet_presence`: a bridge-only document
fails with the fixed error, an ethernet document with a MAC (plus a MAC-less
bond) validates. -/
theorem c6_witness :
    validate_interfaces [⟨"br0", none, "linux-bridge"⟩] =
      .error "No Ethernet interfaces were provided" ∧
    validate_interfaces
      [⟨"eth0", some "00:11:22:33:44:55", "ethernet"⟩, ⟨"bond0", none, "bond"⟩] =
      .ok () :=
  ⟨(c6_validate_ethernet_presence [⟨"br0", none, "linux-bridge"⟩]).1 (by decide),
   (c6_validate_ethernet_presence
      [⟨"eth0", some "00:11:22:33:44:55", "ethernet"⟩, ⟨"bond0", none, "bond"⟩]).2
      (by decide) (by decide)⟩

/-- C7: when an ethernet-type interface is present but some ethernet-type
interface lacks a MAC address, validation fails and the message lists
exactly the logical names of the ethernet-type interfaces without a MAC, in
encounter order, joined by a comma and space; non-ethernet interfaces are
not listed. -/
theorem c7_missing_mac_error (interfaces : List Interface)
    (heth : ∃ i ∈ interfaces, i.interface_type = "ethernet")
    (hmiss : (interfaces.filter fun i =>
        i.interface_type == "ethernet" && i.mac_address.isNone) ≠ []) :
    validate_interfaces interfaces =
      .error ("Detected Ethernet interfaces without a MAC address: "
        ++ String.intercalate ", "
          ((interfaces.filter fun i =>
              i.interface_type == "ethernet" && i.mac_address.isNone).map
            (fun i => i.logical_name))) := by
  obtain ⟨i0, hmem0, heth0⟩ := heth
  have hcomb : ((interfaces.filter fun i => i.interface_type == "ethernet").filter
      fun i => i.mac_address.isNone) =
      interfaces.filter fun i => i.interface_type == "ethernet" && i.mac_address.isNone := by
    rw [List.filter_filter]
    exact List.filter_congr fun i _ => by rw [Bool.and_comm]
  have hne : interfaces.filter (fun i => i.interface_type == "ethernet") ≠ [] := by
    intro hq
    have hm : i0 ∈ interfaces.filter (fun i => i.interface_type == "ethernet") := by
      rw [List.mem_filter]
      exact ⟨hmem0, by simp [heth0]⟩
    simp [hq] at hm
  simp [validate_interfaces, hne, hcomb, hmiss]

/-- Witness for `c7_missing_mac_error`: eth1 and eth3 lack MACs, the
MAC-less vlan is not listed, and the message joins the two names in
encounter order. -/
theorem c7_witness :
    validate_interfaces
      [⟨"eth0", some "00:11:22:33:44:55", "ethernet"⟩,
       ⟨"eth1", none, "ethernet"⟩,
       ⟨"eth3", none, "ethernet"⟩,
       ⟨"eth3.1365", none, "vlan"⟩] =
      .error ("Detected Ethernet interfaces without a MAC address: "
        ++ String.intercalate ", "
          (([(⟨"eth0", some "00:11:22:33:44:55", "ethernet"⟩ : Interface),
             ⟨"eth1", none, "ethernet"⟩,
             ⟨"eth3", none, "ethernet"⟩,
             ⟨"eth3.1365", none, "vlan"⟩].filter fun i =>
              i.interface_type == "ethernet" && i.mac_address.isNone).map
            (fun i => i.logical_name))) :=
  c7_missing_mac_error
    [⟨"eth0", some "00:11:22:33:44:55", "ethernet"⟩,
     ⟨"eth1", none, "ethernet"⟩,
     ⟨"eth3", none, "ethernet"⟩,
     ⟨"eth3.1365", none, "vlan"⟩]
    (by decide) (by decide)

/-! ## C9: loopback interfaces are excluded from extraction -/

/-- C9: extraction never yields a loopback-type interface, and every
non-loopback source interface is kept (as its converted record, in
particular with its name and MAC), so loopback interfaces reach neither the
stored Host record nor validation. -/
theorem c9_extract_skips_loopback (interfaces : List SrcInterface) :
    (∀ i ∈ extract_interfaces interfaces, i.interface_type ≠ "loopback") ∧
    (∀ s ∈ interfaces, s.iface_type ≠ "loopback" →
      (⟨s.name, s.mac_address, s.iface_type⟩ : Interface) ∈ extract_interfaces interfaces) := by
  constructor
  · intro i hi
    unfold extract_interfaces at hi
    obtain ⟨s, hs, rfl⟩ := List.mem_map.mp hi
    have := (List.mem_filter.mp hs).2
    simpa using this
  · intro s hs hnl
    unfold extract_interfaces
    rw [List.mem_map]
    refine ⟨s, ?_, rfl⟩
    rw [List.mem_filter]
    exact ⟨hs, by simpa using hnl⟩

/-- Witness for `c9_extract_skips_loopback`: the loopback is dropped, the
ethernet and bridge interfaces are kept. -/
theorem c9_witness :
    (∀ i ∈ extract_interfaces
        [⟨"eth1", "ethernet", some "FE:C4:05:42:8B:AA"⟩,
         ⟨"lo", "loopback", some "00:00:00:00:00:00"⟩,
         ⟨"bridge0", "linux-bridge", some "FE:C4:05:42:8B:AB"⟩],
      i.interface_type ≠ "loopback") ∧
    (⟨"bridge0", some "FE:C4:05:42:8B:AB", "linux-bridge"⟩ : Interface) ∈
      extract_interfaces
        [⟨"eth1", "ethernet", some "FE:C4:05:42:8B:AA"⟩,
         ⟨"lo", "loopback", some "00:00:00:00:00:00"⟩,
         ⟨"bridge0", "linux-bridge", some "FE:C4:05:42:8B:AB"⟩] :=
  ⟨(c9_extract_skips_loopback
      [⟨"eth1", "ethernet", some "FE:C4:05:42:8B:AA"⟩,
       ⟨"lo", "loopback", some "00:00:00:00:00:00"⟩,
       ⟨"bridge0", "linux-bridge", some "FE:C4:05:42:8B:AB"⟩]).1,
   (c9_extract_skips_loopback
      [⟨"eth1", "ethernet", some "FE:C4:05:42:8B:AA"⟩,
       ⟨"lo", "loopback", some "00:00:00:00:00:00"⟩,
       ⟨"bridge0", "linux-bridge", some "FE:C4:05:42:8B:AB"⟩]).2
      ⟨"bridge0", "linux-bridge", some "FE:C4:05:42:8B:AB"⟩ (by decide) (by decide)⟩

end NMC.Gen

namespace NMC.Map

/-! ## C8: successive appends to the mapping store parse back as one
sequence -/

theorem stripLead_append (p : Str) : ∀ s : Str, stripLead p (p ++ s) = some s := by
  induction p with
  | nil => intro s; rfl
  | cons c cs ih => intro s; simp [stripLead, ih]

theorem stripLead_cons_ne {p c : Char} {ps cs : Str} (h : p ≠ c) :
    stripLead (p :: ps) (c :: cs) = none := by
  simp [stripLead, h]

theorem stripLead_hostLine_none (hn : Str) :
    stripLead "  - logical_name: ".data ("- hostname: ".data ++ hn) = none :=
  stripLead_cons_ne (by decide)

theorem flatten_emitHost_shape (tl : List HostRec) :
    ∀ l1 l2 l3 r, (tl.map emitHost).flatten = l1 :: l2 :: l3 :: r →
      stripLead "  - logical_name: ".data l1 = none := by
  intro l1 l2 l3 r hshape
  cases tl with
  | nil => simp at hshape
  | cons h tl2 =>
    simp only [List.map_cons, List.flatten_cons, emitHost, List.cons_append] at hshape
    obtain ⟨rfl, -⟩ := List.cons.injEq .. ▸ hshape
    exact stripLead_hostLine_none h.hostname

theorem parseIfaces_cons_emit (lnv mv tyv : Str) (restLines : List Str) :
    parseIfaces (("  - logical_name: ".data ++ lnv) ::
        ("    mac_address: ".data ++ mv) ::
        ("    interface_type: ".data ++ tyv) :: restLines) =
      match parseIfaces restLines with
      | some (ifs, rem) => some (⟨lnv, parseMacVal mv, tyv⟩ :: ifs, rem)
      | none => none := by
  simp only [parseIfaces, stripLead_append]

theorem parseIfaces_emit (ifs : List IfaceRec) (rest : List Str)
    (hwf : ∀ i ∈ ifs, wfIface i)
    (hrest : ∀ l1 l2 l3 r, rest = l1 :: l2 :: l3 :: r →
      stripLead "  - logical_name: ".data l1 = none) :
    parseIfaces ((ifs.map emitIface).flatten ++ rest) = some (ifs, rest) := by
  induction ifs with
  | nil =>
    simp only [List.map_nil, List.flatten_nil, List.nil_append]
    cases rest with
    | nil => rfl
    | cons l1 t1 =>
      cases t1 with
      | nil => rfl
      | cons l2 t2 =>
        cases t2 with
        | nil => rfl
        | cons l3 r => simp only [parseIfaces, hrest l1 l2 l3 r rfl]
  | cons i tl ih =>
    obtain ⟨hwf1, hwftl⟩ : wfIface i ∧ ∀ j ∈ tl, wfIface j := by
      refine ⟨hwf i (List.mem_cons_self i tl), fun j hj => hwf j (List.mem_cons_of_mem i hj)⟩
    obtain ⟨ln, mac, ty⟩ := i
    obtain ⟨hn1, hn2, hmac⟩ := hwf1
    cases mac with
    | none =>
      show parseIfaces (("  - logical_name: ".data ++ ln) ::
          ("    mac_address: ".data ++ "null".data) ::
          ("    interface_type: ".data ++ ty) ::
          ((tl.map emitIface).flatten ++ rest)) = _
      rw [parseIfaces_cons_emit, ih hwftl]
      have hpm : parseMacVal "null".data = none := by decide
      rw [hpm]
    | some m =>
      have hmn : m ≠ "null".data := (hmac m rfl).2
      show parseIfaces (("  - logical_name: ".data ++ ln) ::
          ("    mac_address: ".data ++ m) ::
          ("    interface_type: ".data ++ ty) ::
          ((tl.map emitIface).flatten ++ rest)) = _
      rw [parseIfaces_cons_emit, ih hwftl]
      have hpm : parseMacVal m = some m := by simp [parseMacVal, hmn]
      rw [hpm]

theorem parseHosts_cons_emit (hn : Str) (restLines : List Str) :
    parseHosts (("- hostname: ".data ++ hn) :: "  interfaces:".data :: restLines) =
      match parseIfaces restLines with
      | none => none
      | some (ifs, rem) =>
        match parseHosts rem with
        | none => none
        | some hosts => some (⟨hn, ifs⟩ :: hosts) := by
  rw [parseHosts]
  simp only [stripLead_append, if_true]
  cases hp : parseIfaces restLines with
  | none => rfl
  | some pr => cases pr with | mk ifs rem => rfl

theorem parseHosts_emit (hosts : List HostRec) (hwf : ∀ h ∈ hosts, wfHost h) :
    parseHosts ((hosts.map emitHost).flatten) = some hosts := by
  induction hosts with
  | nil => simp [parseHosts]
  | cons h tl ih =>
    obtain ⟨hwh, hwtl⟩ : wfHost h ∧ ∀ g ∈ tl, wfHost g := by
      refine ⟨hwf h (List.mem_cons_self h tl), fun g hg => hwf g (List.mem_cons_of_mem h hg)⟩
    obtain ⟨-, -, hwifs⟩ := hwh
    show parseHosts (("- hostname: ".data ++ h.hostname) :: "  interfaces:".data ::
        ((h.interfaces.map emitIface).flatten ++ (tl.map emitHost).flatten)) = _
    rw [parseHosts_cons_emit,
      parseIfaces_emit h.interfaces ((tl.map emitHost).flatten) hwifs
        (flatten_emitHost_shape tl)]
    dsimp only
    rw [ih hwtl]

/-- The file content after a run of successive appends, starting from
`init`, is the initial content followed by the per-host serializations in
append order. -/
theorem foldl_store_network_mapping (hosts : List HostRec) (init : List Str) :
    hosts.foldl store_network_mapping init = init ++ (hosts.map emitHost).flatten := by
  induction hosts generalizing init with
  | nil => simp
  | cons h tl ih => simp [store_network_mapping, ih, List.append_assoc]

/-- C8: appending one host record at a time to an (initially empty) mapping
file, each append serializing a one-element sequence after the existing
content, yields a file that parses as the single ordered sequence of
exactly the appended host records: no append starts a second top-level
document. Hosts are well-formed in the sense of `wfHost` (one-line plain
scalar values, nonempty interface list). -/
theorem c8_append_round_trip (hosts : List HostRec) (hwf : ∀ h ∈ hosts, wfHost h) :
    parseHosts (hosts.foldl store_network_mapping []) = some hosts := by
  rw [foldl_store_network_mapping, List.nil_append]
  exact parseHosts_emit hosts hwf

/-- Witness for `c8_append_round_trip`: two appended hosts parse back as
the two-host sequence. -/
theorem c8_witness :
    parseHosts
      ([⟨"node1".data, [⟨"eth0".data, some "aa:bb:cc:dd:ee:ff".data, "ethernet".data⟩]⟩,
        ⟨"node2".data, [⟨"eth1".data, none, "ethernet".data⟩]⟩].foldl
        store_network_mapping []) =
      some
        [⟨"node1".data, [⟨"eth0".data, some "aa:bb:cc:dd:ee:ff".data, "ethernet".data⟩]⟩,
         ⟨"node2".data, [⟨"eth1".data, none, "ethernet".data⟩]⟩] :=
  c8_append_round_trip
    [⟨"node1".data, [⟨"eth0".data, some "aa:bb:cc:dd:ee:ff".data, "ethernet".data⟩]⟩,
     ⟨"node2".data, [⟨"eth1".data, none, "ethernet".data⟩]⟩]
    (by simp only [wfHost, wfIface, noNewline]; decide)

end NMC.Map
